import Mathlib

/-
Verification of the egui-states state-synchronization layer.

Shallow embedding of the Python sources:
  - src/egui_pysync/structures.py   (`_Counter`, `_SignalsManager`, `ValueGraphs`)
  - src/egui_states/signals.py      (`SignalsManager`)
  - src/egui_states/structures.py   (`FastEnum`, `Graph`, `ValueGraphs`)
  - src/egui_states/logging.py      (`LogLevel`, `LoggingSignal`)
plus, where the deciding code lives in the compiled `egui_states._core`
extension (not part of the Python sources), a model written from the spec
and marked as such in its doc comment.

Python dicts keyed by integers are embedded either as functions out of `Int`
(with explicit pointwise update) or as association lists; Python lists as
`List`; a callback object as an abstract element of a type with decidable
equality; raising an exception as returning an error value.
-/

namespace EguiStates

/-! ## The id counter (src/egui_pysync/structures.py, class `_Counter`) -/

/-- State of `_Counter`: the single integer field `self._counter`,
initialized to 9 ("first 10 values are reserved for system signals"). -/
structure CounterState where
  counter : Int
deriving DecidableEq

/-- `_Counter.__init__`: `self._counter = 9`. -/
def CounterState.init : CounterState := ⟨9⟩

/-- `_Counter.get_id`: `self._counter += 1; return self._counter`.
Returns the fresh id together with the successor state. -/
def get_id (c : CounterState) : Int × CounterState :=
  (c.counter + 1, ⟨c.counter + 1⟩)

/-- The id returned by the (k+1)-th call of `get_id` on a freshly
constructed counter, together with the state after that call. -/
def nthId : Nat → Int × CounterState
  | 0 => get_id CounterState.init
  | k + 1 => get_id (nthId k).2

theorem nthId_eq (k : Nat) : nthId k = (10 + (k : Int), ⟨10 + (k : Int)⟩) := by
  induction k with
  | zero => rfl
  | succ k ih =>
    simp only [nthId, ih, get_id]
    refine Prod.ext ?_ (CounterState.mk.injEq _ _ ▸ ?_) <;> push_cast <;> ring

/-! ## FastEnum (src/egui_states/structures.py and src/egui_states/custom_types.py) -/

/-- Data of a concrete `FastEnum` subclass: `cls._member_list = tuple(cls)`,
the tuple of the enum's members in declaration order.  Iterating a Python
`Enum` class yields each canonical member exactly once and members are
distinct objects, whence the `nodup` field. -/
structure FastEnumData (α : Type) where
  memberList : List α
  nodup : memberList.Nodup

/-- `FastEnum.from_index`: `cls._member_list[index]` (raises `IndexError`
when out of bounds, hence the bound hypothesis). -/
def FastEnumData.from_index (E : FastEnumData α) (i : Nat)
    (h : i < E.memberList.length) : α :=
  E.memberList.get ⟨i, h⟩

/-- `FastEnum.index`: `self._member_list.index(self)`, the position of the
first member equal to `self`. -/
def FastEnumData.index [DecidableEq α] (E : FastEnumData α) (m : α) : Nat :=
  E.memberList.indexOf m

/-! ## The signals manager callback registry (src/egui_states/signals.py,
class `SignalsManager`) -/

/-- State of `SignalsManager` relevant to callback registration, for one
manager with callbacks of type `κ`:
`present vid` says whether `vid in self._callbacks` (the dict may hold an
empty list after `clear_callbacks`), `cbs vid` is the callback list
`self._callbacks[vid]` (empty when absent), and `lastSent vid` is the flag
of the last `self._server.value_set_register(vid, flag)` call made for
`vid` (`none` when no such call happened yet). -/
structure SigState (κ : Type) where
  present : Int → Bool
  cbs : Int → List κ
  lastSent : Int → Option Bool

/-- A fresh `SignalsManager`: `self._callbacks = {}`, nothing sent yet. -/
def SigState.init (κ : Type) : SigState κ :=
  ⟨fun _ => false, fun _ => [], fun _ => none⟩

/-- `SignalsManager.add_callback`: append to the existing list (or install
`[callback]` when the id is absent), then unconditionally
`value_set_register(value_id, True)`. -/
def addCallback [DecidableEq κ] (s : SigState κ) (vid : Int) (cb : κ) :
    SigState κ where
  present := fun j => if j = vid then true else s.present j
  cbs := fun j =>
    if j = vid then (if s.present vid then s.cbs vid ++ [cb] else [cb])
    else s.cbs j
  lastSent := fun j => if j = vid then some true else s.lastSent j

/-- `SignalsManager.remove_callback`: when the id is present and the
callback is in its list, remove the first occurrence (`list.remove`); if
the list became empty, `value_set_register(value_id, False)`. -/
def removeCallback [DecidableEq κ] (s : SigState κ) (vid : Int) (cb : κ) :
    SigState κ :=
  if s.present vid then
    if cb ∈ s.cbs vid then
      let l := (s.cbs vid).erase cb
      { present := s.present
        cbs := fun j => if j = vid then l else s.cbs j
        lastSent := fun j =>
          if j = vid then (if l.isEmpty then some false else s.lastSent vid)
          else s.lastSent j }
    else s
  else s

/-- `SignalsManager.clear_callbacks`: when the id is present, clear its list
and `value_set_register(value_id, False)`. -/
def clearCallbacks [DecidableEq κ] (s : SigState κ) (vid : Int) : SigState κ :=
  if s.present vid then
    { present := s.present
      cbs := fun j => if j = vid then [] else s.cbs j
      lastSent := fun j => if j = vid then some false else s.lastSent j }
  else s

/-- One call on the signals manager's registration interface. -/
inductive SigOp (κ : Type) where
  | add (vid : Int) (cb : κ)
  | remove (vid : Int) (cb : κ)
  | clear (vid : Int)

/-- Apply one registration call. -/
def applySigOp [DecidableEq κ] (s : SigState κ) : SigOp κ → SigState κ
  | .add vid cb => addCallback s vid cb
  | .remove vid cb => removeCallback s vid cb
  | .clear vid => clearCallbacks s vid

/-- Apply a finite sequence of registration calls in order. -/
def applySigOps [DecidableEq κ] (s : SigState κ) (ops : List (SigOp κ)) :
    SigState κ :=
  ops.foldl applySigOp s

/-- The claimed invariant for one id: the flag last sent to the server via
`value_set_register` is `True` exactly when the id's callback list is
non-empty. -/
def regInv (s : SigState κ) (vid : Int) : Prop :=
  s.lastSent vid = some true ↔ s.cbs vid ≠ []

theorem regInv_applySigOp [DecidableEq κ] (s : SigState κ) (op : SigOp κ)
    (vid : Int) (h : regInv s vid) : regInv (applySigOp s op) vid := by
  unfold regInv at h ⊢
  cases op with
  | add vid' cb =>
    simp only [applySigOp, addCallback]
    by_cases hv : vid = vid'
    · subst hv
      simp only [if_pos rfl]
      by_cases hp : s.present vid <;> simp [hp]
    · simp only [if_neg hv]
      exact h
  | remove vid' cb =>
    by_cases hp : s.present vid'
    · by_cases hm : cb ∈ s.cbs vid'
      · by_cases hv : vid = vid'
        · subst hv
          by_cases he : ((s.cbs vid).erase cb).isEmpty
          · have he' : (s.cbs vid).erase cb = [] := by
              simpa [List.isEmpty_iff] using he
            simp [applySigOp, removeCallback, hp, hm, he, he']
          · have hee : (s.cbs vid).erase cb ≠ [] := by
              simpa [List.isEmpty_iff] using he
            have hne : s.cbs vid ≠ [] := by
              intro hc
              rw [hc] at hm
              exact absurd hm (List.not_mem_nil cb)
            simp only [applySigOp, removeCallback, if_pos hp, if_pos hm,
              if_pos rfl, if_neg he, if_true, ne_eq, hee, not_false_eq_true,
              iff_true]
            exact h.2 hne
        · simp only [applySigOp, removeCallback, if_pos hp, if_pos hm,
            if_neg hv]
          exact h
      · simp only [applySigOp, removeCallback, if_pos hp, if_neg hm]
        exact h
    · simp only [applySigOp, removeCallback, if_neg hp]
      exact h
  | clear vid' =>
    simp only [applySigOp, clearCallbacks]
    by_cases hp : s.present vid'
    · simp only [if_pos hp]
      by_cases hv : vid = vid'
      · subst hv
        simp
      · simp only [if_neg hv]
        exact h
    · simp only [if_neg hp]
      exact h

theorem regInv_applySigOps [DecidableEq κ] (s : SigState κ)
    (ops : List (SigOp κ)) (vid : Int) (h : regInv s vid) :
    regInv (applySigOps s ops) vid := by
  induction ops generalizing s with
  | nil => exact h
  | cons op rest ih =>
    exact ih (applySigOp s op) (regInv_applySigOp s op vid h)

/-! ## LogLevel and the logging fan-out (src/egui_states/logging.py) -/

/-- The `LogLevel` enum. -/
inductive LogLevel where
  | Debug
  | Info
  | Warning
  | Error
deriving DecidableEq

/-- The `value` of each `LogLevel` member as declared in the source:
`Debug = 0, Info = 1, Warning = 2, Error = 3`. -/
def LogLevel.value : LogLevel → Nat
  | .Debug => 0
  | .Info => 1
  | .Warning => 2
  | .Error => 3

/-- `LoggingSignal._callback`, for a loggers table `lg` (the dict
`self._loggers`, keyed by the integer level) and a message `(level, text)`:
the chain of `if level == LogLevel.X.value` tests selects the logger list of
the matching level and calls each of its loggers with `message[1]`.
The result is the list of performed logger invocations, in order. -/
def loggingCallback (lg : Nat → List Λ) (message : Nat × String) :
    List (Λ × String) :=
  let level := message.1
  if level = LogLevel.Debug.value then (lg 0).map (fun g => (g, message.2))
  else if level = LogLevel.Info.value then (lg 1).map (fun g => (g, message.2))
  else if level = LogLevel.Warning.value then (lg 2).map (fun g => (g, message.2))
  else if level = LogLevel.Error.value then (lg 3).map (fun g => (g, message.2))
  else []

/-! ## The dispatch worker loop (src/egui_states/signals.py,
`SignalsManager._run`) -/

/-- One registered callback: an identity `cid` (the Python object identity,
used only to record which callback was invoked) and its behavior on the
event argument, where `some e` means the call raises the exception `e` and
`none` means it returns normally. -/
structure CbEntry (α ε : Type) where
  cid : Nat
  call : α → Option ε

/-- An error passed to the manager's error handler. -/
inductive DispatchErr (ε : Type) where
  | cbError (e : ε)
  | signalNotFound (ind : Int)
deriving DecidableEq

/-- The inner `for callback in callbacks` loop of `_run`: each callback is
invoked inside its own `try`/`except Exception`, a raised exception being
passed to the error handler.  Returns the identities of the callbacks that
were invoked and the errors routed to the error handler, both in order.
The error handler itself is modelled as returning normally, per its type
`Callable[[Exception], None]`. -/
def deliverLoop (arg : α) : List (CbEntry α ε) → List Nat × List (DispatchErr ε)
  | [] => ([], [])
  | cb :: rest =>
    let tail := deliverLoop arg rest
    match cb.call arg with
    | none => (cb.cid :: tail.1, tail.2)
    | some e => (cb.cid :: tail.1, DispatchErr.cbError e :: tail.2)

/-- One iteration of `_run` for a fetched event `(ind, arg)`:
`callbacks = self._callbacks.get(ind, None)`; `if callbacks:` runs the
delivery loop, while a missing id or an empty list (both falsy) passes one
`IndexError("Signal with index {ind} not found.")` to the error handler.
Returns the invoked callback identities and the errors routed to the
error handler. -/
def processEvent (cbget : Int → Option (List (CbEntry α ε))) (ind : Int)
    (arg : α) : List Nat × List (DispatchErr ε) :=
  match cbget ind with
  | some cbs =>
    if cbs.isEmpty then ([], [DispatchErr.signalNotFound ind])
    else deliverLoop arg cbs
  | none => ([], [DispatchErr.signalNotFound ind])

/-- The `while True` loop of `_run`, on a finite prefix of fetched events:
each event is processed in turn and the loop moves on to the next one. -/
def runWorker (cbget : Int → Option (List (CbEntry α ε))) :
    List (Int × α) → List Nat × List (DispatchErr ε)
  | [] => ([], [])
  | (ind, arg) :: rest =>
    let r := processEvent cbget ind arg
    let t := runWorker cbget rest
    (r.1 ++ t.1, r.2 ++ t.2)

theorem deliverLoop_spec (arg : α) (cbs : List (CbEntry α ε)) :
    (deliverLoop arg cbs).1 = cbs.map CbEntry.cid ∧
    (deliverLoop arg cbs).2 =
      cbs.filterMap (fun cb => (cb.call arg).map DispatchErr.cbError) := by
  induction cbs with
  | nil => exact ⟨rfl, rfl⟩
  | cons cb rest ih =>
    simp only [deliverLoop, List.map_cons, List.filterMap_cons]
    cases hc : cb.call arg with
    | none => simpa [hc] using ih
    | some e => simpa [hc] using ih

/-! ## Worker supervision (src/egui_states/signals.py,
`SignalsManager.check_workers`) -/

/-- A worker thread slot: the identity of the thread object currently
installed in `self._workers[i]` and whether `is_alive()` holds for it.
A freshly started thread whose target loops forever is alive. -/
structure WorkerThread where
  tid : Nat
  alive : Bool
deriving DecidableEq

/-- The `for i, worker in enumerate(self._workers)` loop of `check_workers`:
an alive worker is left in place; a dead one is replaced by a freshly
created and started thread.  `next` allocates fresh thread identities. -/
def checkWorkersGo (next : Nat) : List WorkerThread → List WorkerThread × Nat
  | [] => ([], next)
  | w :: ws =>
    if w.alive then
      let r := checkWorkersGo next ws
      (w :: r.1, r.2)
    else
      let r := checkWorkersGo (next + 1) ws
      (⟨next, true⟩ :: r.1, r.2)

/-- The workers list of a `SignalsManager` plus the thread-identity
allocator. -/
structure WorkersState where
  workers : List WorkerThread
  nextTid : Nat
deriving DecidableEq

/-- `SignalsManager.check_workers`. -/
def check_workers (s : WorkersState) : WorkersState :=
  ⟨(checkWorkersGo s.nextTid s.workers).1, (checkWorkersGo s.nextTid s.workers).2⟩

theorem checkWorkersGo_snd (next : Nat) (ws : List WorkerThread) :
    (checkWorkersGo next ws).2 = next + (ws.filter (fun v => !v.alive)).length := by
  induction ws generalizing next with
  | nil => simp [checkWorkersGo]
  | cons v rest ih =>
    by_cases hv : v.alive
    · simp [checkWorkersGo, hv, ih next]
    · have hv' : v.alive = false := by simpa using hv
      simp only [checkWorkersGo, if_neg hv]
      rw [ih (next + 1)]
      have hlen : (List.filter (fun v => !v.alive) (v :: rest)).length
          = (List.filter (fun v => !v.alive) rest).length + 1 := by
        simp [List.filter_cons, hv']
      omega

theorem checkWorkersGo_get (next : Nat) (ws : List WorkerThread) (i : Nat) :
    (checkWorkersGo next ws).1.get? i = (ws.get? i).map
      (fun w => if w.alive then w
        else ⟨next + ((ws.take i).filter (fun v => !v.alive)).length, true⟩) := by
  induction ws generalizing next i with
  | nil => simp [checkWorkersGo]
  | cons v rest ih =>
    by_cases hv : v.alive
    · cases i with
      | zero => simp [checkWorkersGo, hv]
      | succ j =>
        simp only [checkWorkersGo, if_pos hv, List.get?_cons_succ,
          List.take_succ_cons, List.filter_cons]
        rw [ih next j]
        simp [hv]
    · have hv' : v.alive = false := by simpa using hv
      cases i with
      | zero => simp [checkWorkersGo, hv, hv']
      | succ j =>
        simp only [checkWorkersGo, if_neg hv, List.get?_cons_succ,
          List.take_succ_cons, List.filter_cons]
        rw [ih (next + 1) j]
        cases hj : rest.get? j with
        | none => simp [hj]
        | some u =>
          by_cases hu : u.alive
          · simp [hj, hu]
          · have hu' : u.alive = false := by simpa using hu
            simp [hj, hu, hu', hv', WorkerThread.mk.injEq, Nat.add_comm,
              Nat.add_assoc, Nat.add_left_comm]

theorem checkWorkersGo_of_all_alive (next : Nat) (ws : List WorkerThread)
    (h : ∀ w ∈ ws, w.alive = true) : checkWorkersGo next ws = (ws, next) := by
  induction ws with
  | nil => rfl
  | cons w rest ih =>
    have hw : w.alive = true := h w (List.mem_cons_self w rest)
    have hr := ih (fun v hv => h v (List.mem_cons_of_mem w hv))
    simp [checkWorkersGo, hw, hr]

theorem checkWorkersGo_alive (next : Nat) (ws : List WorkerThread) :
    ∀ w ∈ (checkWorkersGo next ws).1, w.alive = true := by
  induction ws generalizing next with
  | nil => intro w hw; exact absurd hw (by simp [checkWorkersGo])
  | cons v rest ih =>
    intro w hw
    by_cases hv : v.alive
    · simp only [checkWorkersGo, if_pos hv] at hw
      rcases List.mem_cons.1 hw with h | h
      · exact h ▸ hv
      · exact ih next w h
    · simp only [checkWorkersGo, if_neg hv] at hw
      rcases List.mem_cons.1 hw with h | h
      · subst h; rfl
      · exact ih (next + 1) w h

/-! ## Graphs (src/egui_states/structures.py, classes `Graph` and
`ValueGraphs`) -/

/-- A `Graph` handle as returned by `ValueGraphs.set`: its `_idx` and the
identity `hid` of the Python object (used to address its mutable
`_deleted` flag in the state). -/
structure GraphHandle where
  idx : Int
  hid : Nat
deriving DecidableEq

/-- State of one `ValueGraphs` container together with the heap of `Graph`
objects it handed out: `table` is the dict `self._graphs` as an association
list from index to handle identity (first match wins, keys unique in
reachable states), `killed h` is the `_deleted` flag of handle `h`, and
`nextHid` allocates fresh handle identities. -/
structure GraphsState where
  nextHid : Nat
  killed : Nat → Bool
  table : List (Int × Nat)

/-- A fresh `ValueGraphs`: `self._graphs = {}`. -/
def GraphsState.init : GraphsState := ⟨0, fun _ => false, []⟩

/-- Errors raised by graph operations: `RuntimeError("Graph was deleted…")`
from `Graph._check`, and the dict `KeyError` from `ValueGraphs.get`. -/
inductive GraphError where
  | deletedGraph
  | keyError
deriving DecidableEq

/-- `Graph._check`: raises the deleted-graph error when `self._deleted`. -/
def graphCheck (s : GraphsState) (g : GraphHandle) : Option GraphError :=
  if s.killed g.hid then some GraphError.deletedGraph else none

/-- `Graph.allive`: `not self._deleted`. -/
def allive (s : GraphsState) (g : GraphHandle) : Bool :=
  ! s.killed g.hid

/-- `Graph.add_points`: `self._check()` then the server call; the result is
the raised error, if any. -/
def graphAddPoints (s : GraphsState) (g : GraphHandle) : Option GraphError :=
  graphCheck s g

/-- `Graph.set`: `self._check()` then the server call. -/
def graphSetData (s : GraphsState) (g : GraphHandle) : Option GraphError :=
  graphCheck s g

/-- `Graph.len`: `self._check()` then the server call. -/
def graphLen (s : GraphsState) (g : GraphHandle) : Option GraphError :=
  graphCheck s g

/-- `Graph._kill`: sets `self._deleted = True` (and issues a server-side
remove, not tracked here). -/
def killHandle (s : GraphsState) (h : Nat) : GraphsState :=
  { s with killed := fun j => if j = h then true else s.killed j }

/-- The `idx = 0; while idx in self._graphs: idx += 1` search of
`ValueGraphs.set`, with explicit fuel (the Python loop runs unboundedly but
`firstFree_spec` shows the given fuel always suffices). -/
def findFree (occ : List Int) : Int → Nat → Int
  | idx, 0 => idx
  | idx, fuel + 1 => if idx ∈ occ then findFree occ (idx + 1) fuel else idx

/-- The index chosen by `ValueGraphs.set` when `idx is None`. -/
def firstFree (occ : List Int) : Int :=
  findFree occ 0 (occ.length + 1)

/-- Creation of a new graph at a free index `i`:
`self._server.graphs_set(...)`, `graph_obj = Graph(value_id, idx, server)`,
`self._graphs[idx] = graph_obj`, `return graph_obj`. -/
def graphsSetNew (s : GraphsState) (i : Int) : GraphHandle × GraphsState :=
  (⟨i, s.nextHid⟩,
   { s with nextHid := s.nextHid + 1, table := (i, s.nextHid) :: s.table })

/-- `ValueGraphs.set(graph, idx, update)`: with `idx is None` the smallest
free index is used; with an existing index the stored graph's `set` runs
(whose `_check` may raise) and the stored handle is returned; otherwise a
new graph is created at the requested index. -/
def graphsSet (s : GraphsState) (idx : Option Int) :
    Except GraphError (GraphHandle × GraphsState) :=
  match idx with
  | none => Except.ok (graphsSetNew s (firstFree (s.table.map Prod.fst)))
  | some i =>
    match s.table.lookup i with
    | some h =>
      match graphCheck s ⟨i, h⟩ with
      | some e => Except.error e
      | none => Except.ok (⟨i, h⟩, s)
    | none => Except.ok (graphsSetNew s i)

/-- `ValueGraphs.remove(graph, update)`: when `graph.idx` is a present key,
`graph._kill()`, a server-side remove, and `self._graphs.pop(graph.idx)`. -/
def graphsRemove (s : GraphsState) (g : GraphHandle) : GraphsState :=
  if (s.table.lookup g.idx).isSome then
    let s1 := killHandle s g.hid
    { s1 with table := s1.table.filter (fun p => p.1 != g.idx) }
  else s

/-- `ValueGraphs.remove_idx(idx, update)`: when `idx` is a present key, kill
the stored graph, server-side remove, and pop the entry. -/
def graphsRemoveIdx (s : GraphsState) (i : Int) : GraphsState :=
  match s.table.lookup i with
  | some h =>
    let s1 := killHandle s h
    { s1 with table := s1.table.filter (fun p => p.1 != i) }
  | none => s

/-- `ValueGraphs.clear(update)`: `self._graphs.clear()` and a server-side
reset.  Note that, unlike `remove`/`remove_idx`, it does not call `_kill`
on the stored graphs. -/
def graphsClear (s : GraphsState) : GraphsState :=
  { s with table := [] }

/-- `ValueGraphs.get(idx)`: `self._graphs[idx]`, raising `KeyError` when the
index is absent. -/
def graphsGet (s : GraphsState) (i : Int) : Except GraphError GraphHandle :=
  match s.table.lookup i with
  | some h => Except.ok ⟨i, h⟩
  | none => Except.error GraphError.keyError

theorem findFree_spec (occ : List Int) (start : Int) (fuel : Nat)
    (h : ∃ k : Int, start ≤ k ∧ k < start + fuel ∧ k ∉ occ) :
    findFree occ start fuel ∉ occ ∧ start ≤ findFree occ start fuel ∧
    ∀ j : Int, start ≤ j → j < findFree occ start fuel → j ∈ occ := by
  induction fuel generalizing start with
  | zero =>
    obtain ⟨k, hk1, hk2, _⟩ := h
    omega
  | succ fuel ih =>
    by_cases hs : start ∈ occ
    · have hnext : ∃ k : Int, start + 1 ≤ k ∧ k < start + 1 + fuel ∧ k ∉ occ := by
        obtain ⟨k, hk1, hk2, hk3⟩ := h
        refine ⟨k, ?_, ?_, hk3⟩
        · rcases lt_or_eq_of_le hk1 with h' | h'
          · omega
          · exact absurd (h' ▸ hs) hk3
        · push_cast at hk2 ⊢
          omega
      obtain ⟨h1, h2, h3⟩ := ih (start + 1) hnext
      refine ⟨?_, ?_, ?_⟩
      · simpa [findFree, hs] using h1
      · have : start ≤ start + 1 := by omega
        calc start ≤ start + 1 := this
          _ ≤ findFree occ (start + 1) fuel := h2
          _ = findFree occ start (fuel + 1) := by simp [findFree, hs]
      · intro j hj1 hj2
        simp only [findFree, if_pos hs] at hj2
        rcases lt_or_eq_of_le hj1 with h' | h'
        · exact h3 j (by omega) hj2
        · exact h' ▸ hs
    · refine ⟨?_, ?_, ?_⟩
      · simp only [findFree, if_neg hs]
        exact hs
      · simp [findFree, hs]
      · intro j hj1 hj2
        simp only [findFree, if_neg hs] at hj2
        omega

theorem exists_free_index (occ : List Int) :
    ∃ k : Int, 0 ≤ k ∧ k < 0 + (occ.length + 1) ∧ k ∉ occ := by
  by_contra hcon
  push_neg at hcon
  have hsub : Finset.Icc (0 : Int) occ.length ⊆ occ.toFinset := by
    intro k hk
    rw [Finset.mem_Icc] at hk
    rw [List.mem_toFinset]
    refine hcon k hk.1 ?_
    omega
  have hcard := Finset.card_le_card hsub
  rw [Int.card_Icc] at hcard
  have htf := List.toFinset_card_le occ
  have : ((occ.length : Int) + 1 - 0).toNat = occ.length + 1 := by
    omega
  omega

theorem firstFree_spec (occ : List Int) :
    firstFree occ ∉ occ ∧ 0 ≤ firstFree occ ∧
    ∀ j : Int, 0 ≤ j → j < firstFree occ → j ∈ occ := by
  exact findFree_spec occ 0 (occ.length + 1) (by
    obtain ⟨k, h1, h2, h3⟩ := exists_free_index occ
    exact ⟨k, h1, by push_cast at h2 ⊢; omega, h3⟩)

/-! ## The value store of the server core.

`Value.set`/`Value.get` in src/egui_states/structures.py delegate to
`self._server.value_set`/`value_get` of `egui_states._core.StateServerCore`,
a compiled extension that is not part of the Python sources; the store and
its validation are therefore modelled from the spec. -/

/-- Modelled from the spec: the closed, recursively composable type
descriptor of §3 — primitives, enum (ordinal table of given cardinality),
tuple, fixed array, growable list, map, struct (ordered fields), optional,
empty. -/
inductive TypeDescriptor where
  | primBool
  | primInt (signed : Bool) (bits : Nat)
  | primString
  | enum (card : Nat)
  | tuple (ts : List TypeDescriptor)
  | fixedArray (t : TypeDescriptor) (n : Nat)
  | vec (t : TypeDescriptor)
  | map (k v : TypeDescriptor)
  | struct (fields : List TypeDescriptor)
  | optional (t : TypeDescriptor)
  | empty

/-- A payload value as sent to `value_set`. -/
inductive Payload where
  | pbool (b : Bool)
  | pint (n : Int)
  | pstr (s : String)
  | ptuple (items : List Payload)
  | plist (items : List Payload)
  | pmap (entries : List (Payload × Payload))
  | pnone

/-- Whether an integer fits the width of an integer primitive. -/
def intFits (signed : Bool) (bits : Nat) (n : Int) : Bool :=
  if signed then decide (-(2 ^ (bits - 1) : Int) ≤ n ∧ n < 2 ^ (bits - 1))
  else decide (0 ≤ n ∧ n < 2 ^ bits)

mutual
/-- Modelled from the spec: validation of a payload against a descriptor
("payload always conforms to its TypeDescriptor", §4.2). -/
def conforms : TypeDescriptor → Payload → Bool
  | .primBool, .pbool _ => true
  | .primInt signed bits, .pint n => intFits signed bits n
  | .primString, .pstr _ => true
  | .enum card, .pint n => decide (0 ≤ n ∧ n < card)
  | .tuple ts, .ptuple items => conformsPairs ts items
  | .fixedArray t n, .plist items =>
    decide (items.length = n) && conformsAll t items
  | .vec t, .plist items => conformsAll t items
  | .map k v, .pmap entries => conformsEntries k v entries
  | .struct fields, .ptuple items => conformsPairs fields items
  | .optional _, .pnone => true
  | .optional t, p => conforms t p
  | .empty, .pnone => true
  | _, _ => false
termination_by t p => sizeOf t + sizeOf p

/-- Element-wise validation of a homogeneous list. -/
def conformsAll : TypeDescriptor → List Payload → Bool
  | _, [] => true
  | t, p :: ps => conforms t p && conformsAll t ps
termination_by t ps => sizeOf t + sizeOf ps

/-- Positional validation of tuple/struct fields. -/
def conformsPairs : List TypeDescriptor → List Payload → Bool
  | [], [] => true
  | t :: ts, p :: ps => conforms t p && conformsPairs ts ps
  | _, _ => false
termination_by ts ps => sizeOf ts + sizeOf ps

/-- Entry-wise validation of a map payload. -/
def conformsEntries :
    TypeDescriptor → TypeDescriptor → List (Payload × Payload) → Bool
  | _, _, [] => true
  | k, v, (a, b) :: es =>
    conforms k a && conforms v b && conformsEntries k v es
termination_by k v es => sizeOf k + sizeOf v + sizeOf es
end

/-- Modelled from the spec: the per-id store of `StateServerCore` — each
registered id holds its descriptor and current payload. -/
def ValueStore := Int → Option (TypeDescriptor × Payload)

/-- Errors reported by `value_set`. -/
inductive SetError where
  | typeMismatch
  | unknownId
deriving DecidableEq

/-- Modelled from the spec: `value_set(id, payload, notify, push_now)`
validates the payload against the id's descriptor, fails with
`TypeMismatchError` on mismatch with the store untouched, and updates the
store on success (§4.2).  Returns the store after the call together with
the error, if any. -/
def value_set (st : ValueStore) (vid : Int) (p : Payload) :
    ValueStore × Option SetError :=
  match st vid with
  | none => (st, some SetError.unknownId)
  | some (d, _) =>
    if conforms d p then
      (fun j => if j = vid then some (d, p) else st j, none)
    else (st, some SetError.typeMismatch)

/-- Modelled from the spec: `value_get(id)` returns the current local
value. -/
def value_get (st : ValueStore) (vid : Int) : Option Payload :=
  (st vid).map Prod.snd

end EguiStates

namespace EguiStates

/-! ## Claim theorems (first group) -/

/-- Claim C2: every id produced by `_Counter.get_id` is at least 10 (ids 0-9
are the reserved block and are never returned), each successive call returns
exactly the previous id plus one, and the very first id is 10, immediately
after the reserved block. -/
theorem C2_counter_ids (k : Nat) :
    10 ≤ (nthId k).1 ∧ (nthId (k + 1)).1 = (nthId k).1 + 1 ∧ (nthId 0).1 = 10 := by
  refine ⟨?_, ?_, rfl⟩
  · rw [nthId_eq]
    omega
  · rw [nthId_eq, nthId_eq]
    push_cast
    ring

/-- Claim C1: for every object id and every finite sequence of
`add_callback`/`remove_callback`/`clear_callbacks` calls starting from a
fresh signals manager, the registered-for-signal flag last sent to the
server for that id via `value_set_register` is `True` if and only if the
id's callback list is non-empty after the sequence; in particular, a
`remove_callback` of the last remaining callback, and a `clear_callbacks`
on a present id, each inform the server with `value_set_register(id, False)`. -/
theorem C1_register_flag_invariant (κ : Type) [DecidableEq κ] :
    (∀ (ops : List (SigOp κ)) (vid : Int),
      ((applySigOps (SigState.init κ) ops).lastSent vid = some true ↔
        (applySigOps (SigState.init κ) ops).cbs vid ≠ [])) ∧
    (∀ (s : SigState κ) (vid : Int) (cb : κ), s.present vid = true →
      s.cbs vid = [cb] → (removeCallback s vid cb).lastSent vid = some false) ∧
    (∀ (s : SigState κ) (vid : Int), s.present vid = true →
      (clearCallbacks s vid).lastSent vid = some false) := by
  refine ⟨?_, ?_, ?_⟩
  · intro ops vid
    have h0 : regInv (SigState.init κ) vid := by
      unfold regInv SigState.init
      simp
    exact regInv_applySigOps (SigState.init κ) ops vid h0
  · intro s vid cb hp hl
    simp [removeCallback, hp, hl, List.erase_cons_head]
  · intro s vid hp
    simp [clearCallbacks, hp]

/-- Witness for C1 with natural-number callbacks: after `add_callback(3, 7)`
the invariant holds at id 3, removing the last callback sends `False`, and
clearing a present id sends `False`. -/
theorem C1_register_flag_invariant_witness :
    ((applySigOps (SigState.init Nat) [SigOp.add 3 7]).lastSent 3 = some true ↔
      (applySigOps (SigState.init Nat) [SigOp.add 3 7]).cbs 3 ≠ []) ∧
    (removeCallback (applySigOps (SigState.init Nat) [SigOp.add 3 7]) 3 7).lastSent 3 =
      some false ∧
    (clearCallbacks (applySigOps (SigState.init Nat) [SigOp.add 3 7]) 3).lastSent 3 =
      some false :=
  ⟨(C1_register_flag_invariant Nat).1 [SigOp.add 3 7] 3,
   (C1_register_flag_invariant Nat).2.1 _ 3 7 (by decide) (by decide),
   (C1_register_flag_invariant Nat).2.2 _ 3 (by decide)⟩

/-- The run refuting claim C3: `set(graph)` (with `idx` `None`) on a fresh
container creates a graph and returns its handle. -/
def c3pair : GraphHandle × GraphsState :=
  match graphsSet GraphsState.init none with
  | Except.ok pr => pr
  | Except.error _ => (⟨0, 0⟩, GraphsState.init)

/-- Claim C3 as stated is false: after removing the graph via the
container's `clear`, the previously obtained handle is still `allive` and
its `add_points`/`set`/`len` raise nothing (they go through to the server),
because `ValueGraphs.clear` empties `self._graphs` without calling `_kill`
on the stored graphs. -/
theorem C3_clear_counterexample :
    allive (graphsClear c3pair.2) c3pair.1 = true ∧
    graphAddPoints (graphsClear c3pair.2) c3pair.1 = none ∧
    graphSetData (graphsClear c3pair.2) c3pair.1 = none ∧
    graphLen (graphsClear c3pair.2) c3pair.1 = none :=
  ⟨rfl, rfl, rfl, rfl⟩

/-- Claim C3 amended: a handle removed by `remove` or `remove_idx` has
`allive` false and its `add_points`/`set`/`len` raise the deleted-graph
error; after `clear`, `get(idx)` raises a lookup error for every idx, but
handles obtained before the `clear` are not marked deleted and their
operations do not fail. -/
theorem C3_removed_graph_errors :
    (∀ (s : GraphsState) (g : GraphHandle), (s.table.lookup g.idx).isSome →
      allive (graphsRemove s g) g = false ∧
      graphAddPoints (graphsRemove s g) g = some GraphError.deletedGraph ∧
      graphSetData (graphsRemove s g) g = some GraphError.deletedGraph ∧
      graphLen (graphsRemove s g) g = some GraphError.deletedGraph) ∧
    (∀ (s : GraphsState) (i : Int) (hid : Nat), s.table.lookup i = some hid →
      allive (graphsRemoveIdx s i) ⟨i, hid⟩ = false ∧
      graphAddPoints (graphsRemoveIdx s i) ⟨i, hid⟩ = some GraphError.deletedGraph ∧
      graphSetData (graphsRemoveIdx s i) ⟨i, hid⟩ = some GraphError.deletedGraph ∧
      graphLen (graphsRemoveIdx s i) ⟨i, hid⟩ = some GraphError.deletedGraph) ∧
    (∀ (s : GraphsState) (i : Int),
      graphsGet (graphsClear s) i = Except.error GraphError.keyError) := by
  refine ⟨?_, ?_, ?_⟩
  · intro s g hg
    have hk : (graphsRemove s g).killed g.hid = true := by
      simp [graphsRemove, hg, killHandle]
    exact ⟨by simp [allive, hk], by simp [graphAddPoints, graphCheck, hk],
      by simp [graphSetData, graphCheck, hk], by simp [graphLen, graphCheck, hk]⟩
  · intro s i hid hi
    have hk : (graphsRemoveIdx s i).killed hid = true := by
      simp [graphsRemoveIdx, hi, killHandle]
    exact ⟨by simp [allive, hk], by simp [graphAddPoints, graphCheck, hk],
      by simp [graphSetData, graphCheck, hk], by simp [graphLen, graphCheck, hk]⟩
  · intro s i
    rfl

/-- Witness for the amended C3 on a container holding one graph at index 0
with handle identity 5. -/
theorem C3_removed_graph_errors_witness :
    (allive (graphsRemove ⟨6, fun _ => false, [((0 : Int), 5)]⟩ ⟨0, 5⟩) ⟨0, 5⟩ = false ∧
      graphAddPoints (graphsRemove ⟨6, fun _ => false, [((0 : Int), 5)]⟩ ⟨0, 5⟩) ⟨0, 5⟩ =
        some GraphError.deletedGraph ∧
      graphSetData (graphsRemove ⟨6, fun _ => false, [((0 : Int), 5)]⟩ ⟨0, 5⟩) ⟨0, 5⟩ =
        some GraphError.deletedGraph ∧
      graphLen (graphsRemove ⟨6, fun _ => false, [((0 : Int), 5)]⟩ ⟨0, 5⟩) ⟨0, 5⟩ =
        some GraphError.deletedGraph) ∧
    graphsGet (graphsClear ⟨6, fun _ => false, [((0 : Int), 5)]⟩) 0 =
      Except.error GraphError.keyError :=
  ⟨C3_removed_graph_errors.1 ⟨6, fun _ => false, [(0, 5)]⟩ ⟨0, 5⟩ rfl,
   C3_removed_graph_errors.2.2 ⟨6, fun _ => false, [(0, 5)]⟩ 0⟩

/-- Claim C9: `ValueGraphs.set(graph, idx=None)` creates the new graph at
the smallest non-negative index not currently occupied, returns a handle
carrying exactly that index, and leaves all existing entries in place. -/
theorem C9_set_smallest_free_index (s : GraphsState) :
    ∃ (g : GraphHandle) (s' : GraphsState),
      graphsSet s none = Except.ok (g, s') ∧
      0 ≤ g.idx ∧
      g.idx ∉ s.table.map Prod.fst ∧
      (∀ j : Int, 0 ≤ j → j < g.idx → j ∈ s.table.map Prod.fst) ∧
      s'.table = (g.idx, g.hid) :: s.table := by
  obtain ⟨h1, h2, h3⟩ := firstFree_spec (s.table.map Prod.fst)
  exact ⟨⟨firstFree (s.table.map Prod.fst), s.nextHid⟩, _, rfl, h2, h1, h3, rfl⟩

/-- Witness for C9 on a container occupying indices 0 and 1: the new graph
gets index 2. -/
theorem C9_set_smallest_free_index_witness :
    ∃ (g : GraphHandle) (s' : GraphsState),
      graphsSet ⟨9, fun _ => false, [((0 : Int), 7), (1, 8)]⟩ none =
        Except.ok (g, s') ∧
      0 ≤ g.idx ∧
      g.idx ∉ ([((0 : Int), 7), (1, 8)] : List (Int × Nat)).map Prod.fst ∧
      (∀ j : Int, 0 ≤ j → j < g.idx →
        j ∈ ([((0 : Int), 7), (1, 8)] : List (Int × Nat)).map Prod.fst) ∧
      s'.table = (g.idx, g.hid) :: [((0 : Int), 7), (1, 8)] :=
  C9_set_smallest_free_index ⟨9, fun _ => false, [(0, 7), (1, 8)]⟩

/-- Claim C7: for every registered value id, `value_set` with a payload
that does not conform to the id's descriptor fails with the type-mismatch
error and leaves the stored payload untouched, so an immediately following
`value_get` returns the prior value unchanged. -/
theorem C7_value_set_atomic_on_mismatch (st : ValueStore) (vid : Int)
    (p : Payload) (d : TypeDescriptor) (v : Payload)
    (hreg : st vid = some (d, v)) (hbad : conforms d p = false) :
    (value_set st vid p).2 = some SetError.typeMismatch ∧
    value_get (value_set st vid p).1 vid = some v ∧
    (value_set st vid p).1 = st := by
  simp [value_set, hreg, hbad, value_get]

/-- A one-value store for the C7 witness: id 0 holds an unsigned 8-bit
integer, currently 5. -/
def c7store : ValueStore :=
  fun j =>
    if j = 0 then some (TypeDescriptor.primInt false 8, Payload.pint 5)
    else none

/-- Witness for C7: setting id 0 to 300 (out of range for u8) reports the
type mismatch and `value_get` still returns 5. -/
theorem C7_value_set_atomic_on_mismatch_witness :
    (value_set c7store 0 (Payload.pint 300)).2 = some SetError.typeMismatch ∧
    value_get (value_set c7store 0 (Payload.pint 300)).1 0 =
      some (Payload.pint 5) ∧
    (value_set c7store 0 (Payload.pint 300)).1 = c7store :=
  C7_value_set_atomic_on_mismatch c7store 0 (Payload.pint 300)
    (TypeDescriptor.primInt false 8) (Payload.pint 5) rfl
    (by simp [conforms, intFits])

/-- Claim C4: for every event `(ind, arg)` fetched by a dispatch worker for
which no callback is currently registered under `ind` (the id is absent
from the callbacks dict, or its list is empty), the worker passes exactly
one signal-not-found error to the error handler, invokes no callback,
raises nothing out of its loop, and continues with the remaining events. -/
theorem C4_unknown_signal_handled (α ε : Type)
    (cbget : Int → Option (List (CbEntry α ε))) (ind : Int) (arg : α)
    (events : List (Int × α))
    (h : cbget ind = none ∨ cbget ind = some []) :
    processEvent cbget ind arg = ([], [DispatchErr.signalNotFound ind]) ∧
    runWorker cbget ((ind, arg) :: events) =
      ((runWorker cbget events).1,
        DispatchErr.signalNotFound ind :: (runWorker cbget events).2) := by
  have hp : processEvent cbget ind arg = ([], [DispatchErr.signalNotFound ind]) := by
    rcases h with h | h <;> simp [processEvent, h]
  exact ⟨hp, by simp [runWorker, hp]⟩

/-- A concrete callbacks table for the C4 witness: only id 1 has a
callback. -/
def c4cbget : Int → Option (List (CbEntry Nat String)) :=
  fun i => if i = 1 then some [⟨5, fun _ => none⟩] else none

/-- Witness for C4: an event for the unknown id 2 yields exactly one
signal-not-found error and the worker goes on to process the event for
id 1. -/
theorem C4_unknown_signal_handled_witness :
    processEvent c4cbget 2 0 = ([], [DispatchErr.signalNotFound 2]) ∧
    runWorker c4cbget [((2 : Int), (0 : Nat)), (1, 0)] =
      ((runWorker c4cbget [(1, 0)]).1,
        DispatchErr.signalNotFound 2 :: (runWorker c4cbget [(1, 0)]).2) :=
  C4_unknown_signal_handled Nat String c4cbget 2 0 [(1, 0)] (Or.inl rfl)

/-- Claim C5: for every delivered event whose id has a non-empty callback
list, every registered callback is invoked exactly once, in registration
order, even when earlier callbacks raise; each raised exception is caught
inside the loop and routed to the error handler, and no callback exception
propagates out of the delivery loop. -/
theorem C5_callback_errors_isolated (α ε : Type)
    (cbget : Int → Option (List (CbEntry α ε))) (ind : Int) (arg : α)
    (cbs : List (CbEntry α ε)) (h : cbget ind = some cbs) (hne : cbs ≠ []) :
    (processEvent cbget ind arg).1 = cbs.map CbEntry.cid ∧
    (processEvent cbget ind arg).2 =
      cbs.filterMap (fun cb => (cb.call arg).map DispatchErr.cbError) := by
  have hE : cbs.isEmpty = false := by
    cases cbs with
    | nil => exact absurd rfl hne
    | cons a l => rfl
  simp only [processEvent, h, hE, Bool.false_eq_true, if_false]
  exact deliverLoop_spec arg cbs

/-- A concrete callbacks table for the C5 witness: id 4 has one raising
callback followed by one normal callback. -/
def c5cbget : Int → Option (List (CbEntry Nat String)) :=
  fun i =>
    if i = 4 then some [⟨0, fun _ => some "boom"⟩, ⟨1, fun _ => none⟩]
    else none

/-- Witness for C5: with a first callback raising, both callbacks are
invoked and exactly the raised exception reaches the error handler. -/
theorem C5_callback_errors_isolated_witness :
    (processEvent c5cbget 4 9).1 = [0, 1] ∧
    (processEvent c5cbget 4 9).2 = [DispatchErr.cbError "boom"] := by
  have h := C5_callback_errors_isolated Nat String c5cbget 4 9
    [⟨0, fun _ => some "boom"⟩, ⟨1, fun _ => none⟩] rfl (List.cons_ne_nil _ _)
  exact ⟨h.1.trans rfl, h.2.trans rfl⟩

/-- Claim C6: `check_workers` may be called at any time: every slot whose
thread is alive is left untouched (same thread object, no new thread
started), every slot whose thread has died receives a freshly created,
started (hence alive) thread, and calling `check_workers` twice in
immediate succession changes nothing the second time. -/
theorem C6_check_workers_idempotent (s : WorkersState) :
    (∀ (i : Nat) (w : WorkerThread), s.workers.get? i = some w →
      w.alive = true → (check_workers s).workers.get? i = some w) ∧
    (∀ (i : Nat) (w : WorkerThread), s.workers.get? i = some w →
      w.alive = false → ∃ w' : WorkerThread,
        (check_workers s).workers.get? i = some w' ∧ w'.alive = true ∧
        s.nextTid ≤ w'.tid) ∧
    check_workers (check_workers s) = check_workers s := by
  refine ⟨?_, ?_, ?_⟩
  · intro i w hi hw
    show (checkWorkersGo s.nextTid s.workers).1.get? i = some w
    rw [checkWorkersGo_get, hi]
    simp [hw]
  · intro i w hi hw
    refine ⟨⟨s.nextTid + ((s.workers.take i).filter (fun v => !v.alive)).length,
      true⟩, ?_, rfl, Nat.le_add_right _ _⟩
    show (checkWorkersGo s.nextTid s.workers).1.get? i = _
    rw [checkWorkersGo_get, hi]
    simp [hw]
  · have hall := checkWorkersGo_alive s.nextTid s.workers
    have hfix := checkWorkersGo_of_all_alive
      (checkWorkersGo s.nextTid s.workers).2
      (checkWorkersGo s.nextTid s.workers).1 hall
    simp [check_workers, hfix]

/-- Witness for C6 on a two-slot state with one alive and one dead worker. -/
theorem C6_check_workers_idempotent_witness :
    (check_workers ⟨[⟨0, true⟩, ⟨1, false⟩], 2⟩).workers.get? 0 =
      some ⟨0, true⟩ ∧
    (∃ w' : WorkerThread,
      (check_workers ⟨[⟨0, true⟩, ⟨1, false⟩], 2⟩).workers.get? 1 = some w' ∧
      w'.alive = true ∧
      (⟨[⟨0, true⟩, ⟨1, false⟩], 2⟩ : WorkersState).nextTid ≤ w'.tid) ∧
    check_workers (check_workers ⟨[⟨0, true⟩, ⟨1, false⟩], 2⟩) =
      check_workers ⟨[⟨0, true⟩, ⟨1, false⟩], 2⟩ :=
  ⟨(C6_check_workers_idempotent _).1 0 ⟨0, true⟩ rfl rfl,
   (C6_check_workers_idempotent _).2.1 1 ⟨1, false⟩ rfl rfl,
   (C6_check_workers_idempotent _).2.2⟩

/-- Claim C10: for every `FastEnum` subclass, `from_index` and `index` are
mutually inverse between members and their declaration-order positions:
`from_index (m.index())` is `m` for every member `m`, and
`from_index(i).index()` is `i` for every position `i`. -/
theorem C10_fastenum_index_inverse {α : Type} [DecidableEq α]
    (E : FastEnumData α) :
    (∀ m ∈ E.memberList, ∃ h : E.index m < E.memberList.length,
        E.from_index (E.index m) h = m) ∧
    (∀ i, ∀ h : i < E.memberList.length, E.index (E.from_index i h) = i) := by
  constructor
  · intro m hm
    refine ⟨List.indexOf_lt_length.2 hm, ?_⟩
    exact List.indexOf_get _
  · intro i h
    exact List.indexOf_getElem E.nodup i h

/-- Witness for C10 at a concrete two-member enum. -/
theorem C10_fastenum_index_inverse_witness :
    (∃ h : (⟨[0, 1], by decide⟩ : FastEnumData Nat).index 1 <
        (⟨[0, 1], by decide⟩ : FastEnumData Nat).memberList.length,
      (⟨[0, 1], by decide⟩ : FastEnumData Nat).from_index
        ((⟨[0, 1], by decide⟩ : FastEnumData Nat).index 1) h = 1) ∧
    (⟨[0, 1], by decide⟩ : FastEnumData Nat).index
      ((⟨[0, 1], by decide⟩ : FastEnumData Nat).from_index 1 (by decide)) = 1 :=
  ⟨(C10_fastenum_index_inverse ⟨[0, 1], by decide⟩).1 1 (by decide),
   (C10_fastenum_index_inverse ⟨[0, 1], by decide⟩).2 1 (by decide)⟩

/-- Claim C8: the log-level enum has exactly the ordinals `Debug = 0`,
`Info = 1`, `Warning = 2`, `Error = 3` (and no other members), and for every
logging message `(level, text)` with `level < 4` the logging signal invokes
each logger registered for exactly that level with `text` and no other
logger. -/
theorem C8_loglevel_fanout :
    (LogLevel.Debug.value = 0 ∧ LogLevel.Info.value = 1 ∧
     LogLevel.Warning.value = 2 ∧ LogLevel.Error.value = 3) ∧
    (∀ l : LogLevel, l = .Debug ∨ l = .Info ∨ l = .Warning ∨ l = .Error) ∧
    (∀ (Λ : Type) (lg : Nat → List Λ) (level : Nat) (text : String),
      level < 4 →
      loggingCallback lg (level, text) = (lg level).map (fun g => (g, text))) := by
  refine ⟨⟨rfl, rfl, rfl, rfl⟩, ?_, ?_⟩
  · intro l
    cases l <;> simp
  · intro Λ lg level text hlevel
    match level, hlevel with
    | 0, _ => rfl
    | 1, _ => rfl
    | 2, _ => rfl
    | 3, _ => rfl

/-- Witness for C8 at a concrete loggers table and message. -/
theorem C8_loglevel_fanout_witness :
    loggingCallback (fun i => if i = 2 then [7] else [9]) (2, "hot") =
    [(7, "hot")] :=
  (C8_loglevel_fanout.2.2 Nat (fun i => if i = 2 then [7] else [9]) 2 "hot"
    (by decide)).trans rfl

end EguiStates
